import Mathlib

/-!
Verification of the loki-mode repository: provider configuration tables
(providers/claude.sh, providers/codex.sh), the postinstall symlink manager
(bin/postinstall.js), the standalone dashboard bundler
(dashboard-ui/scripts/build-standalone.js), and the documented task-queue /
completion-council / session orchestration subsystem, which the repository
describes (architecture diagrams, spec) but does not ship as code and which
is therefore modelled from the specification text.
-/

namespace LokiMode

/-! ## Provider configuration tables (providers/claude.sh, providers/codex.sh) -/

/-- One provider's capability table, as set by the shell variables
`PROVIDER_NAME`, `PROVIDER_HAS_SUBAGENTS`, `PROVIDER_HAS_PARALLEL`,
`PROVIDER_HAS_TASK_TOOL`, `PROVIDER_HAS_MCP`, `PROVIDER_MAX_PARALLEL`,
`PROVIDER_DEGRADED` in each provider script. -/
structure ProviderConfig where
  name : String
  hasSubagents : Bool
  hasParallel : Bool
  hasTaskTool : Bool
  hasMCP : Bool
  maxParallel : Nat
  degraded : Bool
deriving DecidableEq

/-- providers/claude.sh: PROVIDER_HAS_SUBAGENTS=true, PROVIDER_HAS_PARALLEL=true,
PROVIDER_HAS_TASK_TOOL=true, PROVIDER_HAS_MCP=true, PROVIDER_MAX_PARALLEL=10,
PROVIDER_DEGRADED=false. -/
def claudeProvider : ProviderConfig :=
  { name := "claude", hasSubagents := true, hasParallel := true,
    hasTaskTool := true, hasMCP := true, maxParallel := 10, degraded := false }

/-- providers/codex.sh: PROVIDER_HAS_SUBAGENTS=false, PROVIDER_HAS_PARALLEL=false,
PROVIDER_HAS_TASK_TOOL=false, PROVIDER_HAS_MCP=false, PROVIDER_MAX_PARALLEL=1,
PROVIDER_DEGRADED=true. -/
def codexProvider : ProviderConfig :=
  { name := "codex", hasSubagents := false, hasParallel := false,
    hasTaskTool := false, hasMCP := false, maxParallel := 1, degraded := true }

/-- All provider configuration scripts present in the repository. -/
def providers : List ProviderConfig := [claudeProvider, codexProvider]

/-- providers/codex.sh `provider_get_tier_param`: case on the tier string,
planning ↦ xhigh, development ↦ high, fast ↦ low, default high. -/
def provider_get_tier_param_codex (tier : String) : String :=
  if tier = "planning" then "xhigh"
  else if tier = "development" then "high"
  else if tier = "fast" then "low"
  else "high"

/-- providers/claude.sh `provider_get_tier_param`: case on the tier string,
planning ↦ opus, development ↦ sonnet, fast ↦ haiku, default sonnet. -/
def provider_get_tier_param_claude (tier : String) : String :=
  if tier = "planning" then "opus"
  else if tier = "development" then "sonnet"
  else if tier = "fast" then "haiku"
  else "sonnet"

/-! ## Standalone dashboard bundler (dashboard-ui/scripts/build-standalone.js) -/

/-- build-standalone.js line 26:
`const shouldMinify = args.includes('--minify') || !args.includes('--no-minify');`. -/
def shouldMinify (args : List String) : Bool :=
  args.contains "--minify" || !(args.contains "--no-minify")

/-! ## Postinstall symlink manager (bin/postinstall.js)

The script inspects the entry at `~/.claude/skills/loki-mode` (`skillDir`):
a symlink is unlinked; a real (non-symlink) directory is renamed to
`skillDir + '.backup.' + Date.now()` (the rename may fail, in which case the
directory is left in place); afterwards, a symlink to the package directory
is created only if the path is now empty. We model the filesystem as the two
relevant paths, with directory contents abstracted to a `Nat` payload. -/

/-- A filesystem entry at a path: a symbolic link with its target, or a real
directory with abstract contents. -/
inductive FsEntry
  | symlinkTo (target : String)
  | realDir (contents : Nat)
deriving DecidableEq

/-- The part of the filesystem postinstall.js touches: the skill path and the
fresh timestamped backup path. -/
structure SkillFs where
  atSkillDir : Option FsEntry
  atBackup : Option FsEntry
deriving DecidableEq

/-- Abstract name of the npm package directory the symlink points to. -/
def packageDirPath : String := "packageDir"

/-- bin/postinstall.js lines 25-67: clear the skill path (unlink a symlink;
rename a real directory to the backup path, `renameOk` abstracting whether
`fs.renameSync` succeeds), then create the symlink only if the path is empty. -/
def postinstallSetup (renameOk : Bool) (fs : SkillFs) : SkillFs :=
  let fs1 :=
    match fs.atSkillDir with
    | none => fs
    | some (FsEntry.symlinkTo _) => { fs with atSkillDir := none }
    | some (FsEntry.realDir d) =>
        if renameOk then
          { fs with atSkillDir := none, atBackup := some (FsEntry.realDir d) }
        else fs
  match fs1.atSkillDir with
  | none => { fs1 with atSkillDir := some (FsEntry.symlinkTo packageDirPath) }
  | some _ => fs1

/-! ## Task queue with retry/dead-letter semantics

The spec (§3, §4.1, §4.2) and the architecture diagram describe the Task
Queue Store and Retry/Dead-Letter Manager; the repository ships only the
diagram, not the code, so the definitions below are modelled from the
specification text. -/

/-- Modelled from the spec: task lifecycle states
pending, queued, in_progress, stalled, retrying, completed, dead_letter.
The implementation is described only by the Task Queue State Machine diagram. -/
inductive TaskState
  | pending
  | queued
  | in_progress
  | stalled
  | retrying
  | completed
  | dead_letter
deriving DecidableEq

/-- Modelled from the spec: a task record with unique identifier, creation
timestamp, retry count (0..5) and lifecycle state. -/
structure Task where
  id : Nat
  createdAt : Nat
  retryCount : Nat
  state : TaskState
deriving DecidableEq

/-- Modelled from the spec: the retry cap, default 5 (§6). -/
def retryCap : Nat := 5

/-- Modelled from the spec (§4.2): the Retry/Dead-Letter Manager's action on a
stalled task — transition through `retrying` incrementing the retry count, then
re-enqueue as `queued` while the retry count is below the cap, otherwise move to
the terminal `dead_letter` state. `retrying` is the transient state inside this
single manager operation. -/
def retryStalled (t : Task) : Task :=
  if t.retryCount + 1 < retryCap then
    { t with state := TaskState.queued, retryCount := t.retryCount + 1 }
  else
    { t with state := TaskState.dead_letter, retryCount := t.retryCount + 1 }

/-- Modelled from the spec: a freshly created task starts in `pending` with
retry count 0. -/
def freshTask (i ts : Nat) : Task :=
  { id := i, createdAt := ts, retryCount := 0, state := TaskState.pending }

/-- Modelled from the spec: the per-task transitions of the Task Queue State
Machine — queue (pending→queued), pick (queued→in_progress), stall-sweep
(in_progress→stalled on timeout), the Retry/Dead-Letter Manager's action on
`stalled`, and complete (in_progress→completed). No transition leaves
`dead_letter`. -/
inductive TaskStep : Task → Task → Prop
  | queue (t : Task) : t.state = TaskState.pending →
      TaskStep t { t with state := TaskState.queued }
  | pickStep (t : Task) : t.state = TaskState.queued →
      TaskStep t { t with state := TaskState.in_progress }
  | stall (t : Task) : t.state = TaskState.in_progress →
      TaskStep t { t with state := TaskState.stalled }
  | retry (t : Task) : t.state = TaskState.stalled →
      TaskStep t (retryStalled t)
  | completeStep (t : Task) : t.state = TaskState.in_progress →
      TaskStep t { t with state := TaskState.completed }

/-- A task state reachable from a freshly created task by queue transitions. -/
inductive TaskReachable : Task → Prop
  | init (i ts : Nat) : TaskReachable (freshTask i ts)
  | step {t t' : Task} : TaskReachable t → TaskStep t t' → TaskReachable t'

/-- The retry/dead-letter invariant: a dead-lettered task has retry count
exactly `retryCap`, and a task in any other state has retry count below it. -/
def RetryInv (t : Task) : Prop :=
  (t.state = TaskState.dead_letter → t.retryCount = retryCap) ∧
  (t.state ≠ TaskState.dead_letter → t.retryCount < retryCap)

lemma retryInv_fresh (i ts : Nat) : RetryInv (freshTask i ts) := by
  constructor
  · intro h; simp [freshTask] at h
  · intro _; simp [freshTask, retryCap]

lemma retryInv_step {t t' : Task} (hInv : RetryInv t) (hs : TaskStep t t') :
    RetryInv t' := by
  obtain ⟨hdl, hndl⟩ := hInv
  cases hs with
  | queue h =>
      exact ⟨by simp, fun _ => by simpa using hndl (by simp [h])⟩
  | pickStep h =>
      exact ⟨by simp, fun _ => by simpa using hndl (by simp [h])⟩
  | stall h =>
      exact ⟨by simp, fun _ => by simpa using hndl (by simp [h])⟩
  | completeStep h =>
      exact ⟨by simp, fun _ => by simpa using hndl (by simp [h])⟩
  | retry h =>
      have hlt : t.retryCount < retryCap := hndl (by simp [h])
      unfold retryStalled
      by_cases hc : t.retryCount + 1 < retryCap
      · rw [if_pos hc]
        exact ⟨by simp, fun _ => by simpa using hc⟩
      · rw [if_neg hc]
        refine ⟨fun _ => ?_, fun hne => ?_⟩
        · simp only [not_lt] at hc
          simpa using Nat.le_antisymm (Nat.succ_le_of_lt hlt) hc
        · simp at hne

lemma retryInv_reachable {t : Task} (h : TaskReachable t) : RetryInv t := by
  induction h with
  | init i ts => exact retryInv_fresh i ts
  | step _ hs ih => exact retryInv_step ih hs

lemma dead_letter_terminal {t t' : Task} (hs : TaskStep t t') :
    t.state ≠ TaskState.dead_letter := by
  cases hs <;> simp_all

/-! ## Queue-level operations (§4.1, §5)

The queue store is modelled as a list of task records in enqueue (FIFO)
order. Per §5, `pick`/`complete`/stall-sweep are serialized in a
single-writer critical section per task record, so a concurrent execution of
two atomic `pick` calls is observationally a sequential composition of the
two. -/

/-- Modelled from the spec (§4.1): `pick()` atomically selects the oldest
`queued` task — the first in FIFO order — transitions it to `in_progress`,
and returns it together with the updated store, or `none` when no task is
queued. -/
def pick : List Task → Option (Task × List Task)
  | [] => none
  | t :: ts =>
      if t.state = TaskState.queued then
        some ({ t with state := TaskState.in_progress },
              { t with state := TaskState.in_progress } :: ts)
      else
        match pick ts with
        | none => none
        | some (p, ts') => some (p, t :: ts')

/-- The identifiers of the queued tasks of a store, in FIFO order. -/
def queuedIds (q : List Task) : List Nat :=
  (q.filter (fun t => t.state = TaskState.queued)).map Task.id

lemma pick_none_iff (q : List Task) :
    pick q = none ↔ ∀ t ∈ q, t.state ≠ TaskState.queued := by
  induction q with
  | nil => simp [pick]
  | cons t ts ih =>
      by_cases h : t.state = TaskState.queued
      · simp [pick, h]
      · rw [pick, if_neg h]
        cases hp : pick ts with
        | none =>
            constructor
            · intro _ u hu
              rcases List.mem_cons.mp hu with h1 | h1
              · exact h1 ▸ h
              · exact (ih.mp hp) u h1
            · intro _; rfl
        | some p =>
            obtain ⟨p1, p2⟩ := p
            constructor
            · intro hc; exact absurd hc (by simp)
            · intro hall
              have hq : ∀ u ∈ ts, u.state ≠ TaskState.queued := by
                intro u hu; exact hall u (List.mem_cons_of_mem t hu)
              exact absurd (ih.mpr hq) (by simp [hp])

/-- Structural characterization of a successful `pick`: the store splits as
`pre ++ t0 :: suf` where `pre` holds no queued task (so `t0` is the first
queued task in FIFO order), the returned task is `t0` moved to `in_progress`,
and the updated store replaces `t0` in place. -/
lemma pick_spec {q : List Task} {t : Task} {q' : List Task}
    (h : pick q = some (t, q')) :
    ∃ pre t0 suf, q = pre ++ t0 :: suf ∧
      (∀ u ∈ pre, u.state ≠ TaskState.queued) ∧
      t0.state = TaskState.queued ∧
      t = { t0 with state := TaskState.in_progress } ∧
      q' = pre ++ t :: suf := by
  induction q generalizing t q' with
  | nil => simp [pick] at h
  | cons x xs ih =>
      by_cases hx : x.state = TaskState.queued
      · rw [pick, if_pos hx] at h
        obtain ⟨h1, h2⟩ := Prod.mk.injEq _ _ _ _ ▸ Option.some.injEq _ _ ▸ h
        refine ⟨[], x, xs, by simp, by simp, hx, h1.symm, ?_⟩
        simp [← h2, h1]
      · rw [pick, if_neg hx] at h
        cases hp : pick xs with
        | none => rw [hp] at h; simp at h
        | some p =>
            obtain ⟨p1, p2⟩ := p
            rw [hp] at h
            simp only [Option.some.injEq, Prod.mk.injEq] at h
            obtain ⟨ht, hq'⟩ := h
            obtain ⟨pre, t0, suf, hsplit, hpre, ht0, htt, hts⟩ := ih (ht ▸ hp)
            refine ⟨x :: pre, t0, suf, by simp [hsplit], ?_, ht0, htt, ?_⟩
            · intro u hu
              rcases List.mem_cons.mp hu with h1 | h1
              · exact h1 ▸ hx
              · exact hpre u h1
            · simp [← hq', hts]

/-- A successful `pick` removes exactly the returned task's identifier from
the head of the queued-identifier list: the picked task was queued, is
returned as `in_progress`, and the remaining queued tasks are unchanged. -/
lemma pick_queuedIds {q : List Task} {t : Task} {q' : List Task}
    (h : pick q = some (t, q')) :
    t.state = TaskState.in_progress ∧ queuedIds q = t.id :: queuedIds q' := by
  obtain ⟨pre, t0, suf, hsplit, hpre, ht0, htt, hts⟩ := pick_spec h
  have hpreq : (pre.filter (fun u => u.state = TaskState.queued)) = [] := by
    rw [List.filter_eq_nil_iff]
    intro u hu
    simp [hpre u hu]
  constructor
  · rw [htt]
  · rw [hsplit, hts]
    unfold queuedIds
    rw [List.filter_append, List.filter_append, hpreq]
    simp only [List.nil_append, List.filter_cons]
    rw [htt]
    simp [ht0]

lemma queuedIds_sublist (q : List Task) : (queuedIds q).Sublist (q.map Task.id) :=
  List.Sublist.map Task.id (List.filter_sublist q)

/-! ## Completion Council (§4.4)

The council is described by the spec and the Completion Council diagram; the
repository ships no implementation, so the definitions are modelled from the
specification text. -/

/-- Modelled from the spec: a council member's yes/no vote. -/
inductive Vote
  | yes
  | no
deriving DecidableEq

/-- Modelled from the spec: a round outcome — `cont` renders the spec's
`continue`, alongside `complete` and `devils-advocate-pending`. -/
inductive CouncilOutcome
  | cont
  | complete
  | devilsAdvocatePending
deriving DecidableEq

/-- Modelled from the spec: the council has 3 members. -/
def councilSize : Nat := 3

/-- The number of yes votes in a round. -/
def yesCount (votes : List Vote) : Nat := votes.count Vote.yes

/-- Modelled from the spec (§4.4): the tally decision rule — at least 2/3 yes
gives a tentative `complete`, below 2/3 yes gives `continue`. -/
def tally (votes : List Vote) : CouncilOutcome :=
  if 3 * yesCount votes ≥ 2 * votes.length then CouncilOutcome.complete
  else CouncilOutcome.cont

/-- A unanimous yes vote. -/
def unanimousYes (votes : List Vote) : Bool :=
  votes.all (fun v => v = Vote.yes)

/-- Modelled from the spec (§7): the council's error. -/
inductive CouncilError
  | quorumError
deriving DecidableEq

/-- Modelled from the spec: a persisted, immutable council round record —
round number, votes, outcome. -/
structure CouncilRound where
  roundNumber : Nat
  votes : List Vote
  outcome : CouncilOutcome
deriving DecidableEq

/-- Modelled from the spec (§4.4): `checkConvergence` — fewer than 3 member
responses fail with `QuorumError` (the round is discarded); otherwise the
votes are tallied, a unanimous yes additionally runs the devil's-advocate
re-review (`daPass` abstracting the external judgment), whose rejection
downgrades the decision to `continue`; each decided round is appended
immutably to the audit history, the devil's-advocate pass as a distinct
round record after the tentative tally record. -/
def checkConvergence (roundNo : Nat) (responses : List Vote) (daPass : Bool)
    (history : List CouncilRound) :
    Except CouncilError (CouncilOutcome × List CouncilRound) :=
  if responses.length < councilSize then
    Except.error CouncilError.quorumError
  else if tally responses = CouncilOutcome.complete ∧ unanimousYes responses = true then
    if daPass then
      Except.ok (CouncilOutcome.complete,
        history ++
          [{ roundNumber := roundNo, votes := responses,
             outcome := CouncilOutcome.devilsAdvocatePending },
           { roundNumber := roundNo, votes := responses,
             outcome := CouncilOutcome.complete }])
    else
      Except.ok (CouncilOutcome.cont,
        history ++
          [{ roundNumber := roundNo, votes := responses,
             outcome := CouncilOutcome.devilsAdvocatePending },
           { roundNumber := roundNo, votes := responses,
             outcome := CouncilOutcome.cont }])
  else
    Except.ok (tally responses,
      history ++
        [{ roundNumber := roundNo, votes := responses, outcome := tally responses }])

/-- Modelled from the spec (§4.4, §9): the convergence decision the session
uses for the iteration — on `QuorumError` it defaults to `continue`. -/
def convergenceDecision
    (r : Except CouncilError (CouncilOutcome × List CouncilRound)) : CouncilOutcome :=
  match r with
  | Except.error _ => CouncilOutcome.cont
  | Except.ok (d, _) => d

/-- The persisted round history after a `checkConvergence` call: a failed
(quorum-error) round is discarded, leaving the history unchanged. -/
def historyAfter (history : List CouncilRound)
    (r : Except CouncilError (CouncilOutcome × List CouncilRound)) :
    List CouncilRound :=
  match r with
  | Except.error _ => history
  | Except.ok (_, h) => h

/-! ## Session State Machine (§4.5), modelled from the spec -/

/-- Modelled from the spec: top-level session states. -/
inductive SessionState
  | idle
  | initializing
  | running
  | paused
  | phase (n : Nat)
  | completing
  | completed
  | failed
  | maxRetriesExceeded
  | stopped
deriving DecidableEq

/-- Modelled from the spec: the session record — state, task queue, persisted
council state, current phase index, iteration counter. -/
structure Session where
  state : SessionState
  queue : List Task
  council : List CouncilRound
  phaseIndex : Nat
  iteration : Nat
deriving DecidableEq

/-- Modelled from the spec (§4.5): `pause` moves `running` to `paused`,
touching nothing but the session state. -/
def pauseSession (s : Session) : Session :=
  if s.state = SessionState.running then { s with state := SessionState.paused }
  else s

/-- Modelled from the spec (§4.5): `resume` moves `paused` back to `running`,
touching nothing but the session state. -/
def resumeSession (s : Session) : Session :=
  if s.state = SessionState.paused then { s with state := SessionState.running }
  else s

/-! ## Agent Lifecycle Controller (§4.3), modelled from the spec -/

/-- Modelled from the spec: agent lifecycle states. -/
inductive AgentState
  | spawn
  | ready
  | working
  | reporting
  | error
  | retrying
  | terminated
deriving DecidableEq

/-- Modelled from the spec (§4.3, §5): the number of in-flight `working`
agents. The controller's agents are a list of lifecycle states, agents
indexed by position. -/
def workingCount (agents : List AgentState) : Nat :=
  agents.count AgentState.working

/-- Result of an `assign` call. -/
inductive AssignResult
  | ok (agents : List AgentState)
  | agentBusy
  | capacityExceeded
deriving DecidableEq

/-- Modelled from the spec (§4.3): `assign(agentId, task)` fails with
`CapacityExceeded` once the working-agent count reaches the configured
maximum concurrency `maxPar` (`PROVIDER_MAX_PARALLEL`), fails with
`AgentBusy` when the agent is not `ready`, and otherwise moves the agent
`ready`→`working`. The weak task reference is an index lookup and is not
modelled (ownership stays with the queue store, §9). -/
def assign (maxPar : Nat) (agents : List AgentState) (i : Nat) : AssignResult :=
  if workingCount agents ≥ maxPar then AssignResult.capacityExceeded
  else if h : i < agents.length then
    if agents.get ⟨i, h⟩ = AgentState.ready then
      AssignResult.ok (agents.set i AgentState.working)
    else AssignResult.agentBusy
  else AssignResult.agentBusy

/-- Modelled from the spec (§4.3): the controller states reachable under the
documented lifecycle — spawning a `ready` agent, `assign`, completion
(`working`→`reporting`→`terminated`), transient failure
(`working`→`error`→`retrying`) and resumption back to `working`, the latter
bounded by the same maximum concurrency (§5: parallel agent count is bounded
by the configured maximum). -/
inductive CtrlReach (maxPar : Nat) : List AgentState → Prop
  | init : CtrlReach maxPar []
  | spawnStep {l : List AgentState} : CtrlReach maxPar l →
      CtrlReach maxPar (l ++ [AgentState.ready])
  | assignStep {l l' : List AgentState} {i : Nat} : CtrlReach maxPar l →
      assign maxPar l i = AssignResult.ok l' → CtrlReach maxPar l'
  | completeW {l : List AgentState} {i : Nat} (h : i < l.length) :
      CtrlReach maxPar l → l.get ⟨i, h⟩ = AgentState.working →
      CtrlReach maxPar (l.set i AgentState.reporting)
  | reportStep {l : List AgentState} {i : Nat} (h : i < l.length) :
      CtrlReach maxPar l → l.get ⟨i, h⟩ = AgentState.reporting →
      CtrlReach maxPar (l.set i AgentState.terminated)
  | errorStep {l : List AgentState} {i : Nat} (h : i < l.length) :
      CtrlReach maxPar l → l.get ⟨i, h⟩ = AgentState.working →
      CtrlReach maxPar (l.set i AgentState.error)
  | retryAgent {l : List AgentState} {i : Nat} (h : i < l.length) :
      CtrlReach maxPar l → l.get ⟨i, h⟩ = AgentState.error →
      CtrlReach maxPar (l.set i AgentState.retrying)
  | resumeWork {l : List AgentState} {i : Nat} (h : i < l.length) :
      CtrlReach maxPar l → l.get ⟨i, h⟩ = AgentState.retrying →
      workingCount l < maxPar → CtrlReach maxPar (l.set i AgentState.working)

lemma count_set_le_succ (l : List AgentState) (i : Nat) (v a : AgentState) :
    (l.set i v).count a ≤ l.count a + 1 := by
  induction l generalizing i with
  | nil => simp
  | cons x xs ih =>
      cases i with
      | zero =>
          simp only [List.set]
          rw [List.count_cons, List.count_cons]
          by_cases hv : v = a
          all_goals by_cases hx : x = a
          all_goals simp [hv, hx]
          all_goals omega
      | succ n =>
          simp only [List.set]
          rw [List.count_cons, List.count_cons]
          have := ih n
          by_cases hx : x = a <;> simp [hx] <;> omega

lemma count_set_ne_le (l : List AgentState) (i : Nat) (v a : AgentState)
    (hva : v ≠ a) : (l.set i v).count a ≤ l.count a := by
  induction l generalizing i with
  | nil => simp
  | cons x xs ih =>
      cases i with
      | zero =>
          simp only [List.set]
          rw [List.count_cons, List.count_cons]
          by_cases hx : x = a <;> simp [hva, hx]
      | succ n =>
          simp only [List.set]
          rw [List.count_cons, List.count_cons]
          have := ih n
          by_cases hx : x = a <;> simp [hx] <;> omega

lemma assign_ok_elim {maxPar : Nat} {l l' : List AgentState} {i : Nat}
    (h : assign maxPar l i = AssignResult.ok l') :
    workingCount l < maxPar ∧ l' = l.set i AgentState.working := by
  unfold assign at h
  by_cases hcap : workingCount l ≥ maxPar
  · rw [if_pos hcap] at h; cases h
  · rw [if_neg hcap] at h
    refine ⟨lt_of_not_ge hcap, ?_⟩
    by_cases hlen : i < l.length
    · rw [dif_pos hlen] at h
      by_cases hr : l.get ⟨i, hlen⟩ = AgentState.ready
      · rw [if_pos hr] at h
        injection h with h1
        exact h1.symm
      · rw [if_neg hr] at h; cases h
    · rw [dif_neg hlen] at h; cases h

/-- The concurrency bound: every reachable controller state has at most
`maxPar` agents in state `working`. -/
lemma workingCount_reach {maxPar : Nat} {l : List AgentState}
    (h : CtrlReach maxPar l) : workingCount l ≤ maxPar := by
  induction h with
  | init => simp [workingCount]
  | spawnStep _ ih =>
      unfold workingCount at ih ⊢
      rw [List.count_append]
      simpa using ih
  | assignStep _ ha ih =>
      obtain ⟨hlt, hset⟩ := assign_ok_elim ha
      unfold workingCount at hlt ih ⊢
      rw [hset]
      calc _ ≤ _ + 1 := count_set_le_succ _ _ _ _
        _ ≤ maxPar := hlt
  | completeW hlen _ hget ih =>
      unfold workingCount at ih ⊢
      exact le_trans (count_set_ne_le _ _ _ _ (by simp)) ih
  | reportStep hlen _ hget ih =>
      unfold workingCount at ih ⊢
      exact le_trans (count_set_ne_le _ _ _ _ (by simp)) ih
  | errorStep hlen _ hget ih =>
      unfold workingCount at ih ⊢
      exact le_trans (count_set_ne_le _ _ _ _ (by simp)) ih
  | retryAgent hlen _ hget ih =>
      unfold workingCount at ih ⊢
      exact le_trans (count_set_ne_le _ _ _ _ (by simp)) ih
  | resumeWork hlen _ hget hlt ih =>
      unfold workingCount at hlt ⊢
      calc _ ≤ _ + 1 := count_set_le_succ _ _ _ _
        _ ≤ maxPar := hlt

/-! ## Claims -/

/-- C1: a task is in state `dead_letter` iff its retry count has reached 5 —
each stalled task is re-enqueued as `queued` with its retry count incremented
while the count stays below 5, moves to `dead_letter` exactly when the count
reaches 5, and `dead_letter` is terminal (no transition leaves it). -/
theorem task_dead_letter_iff_retry_five :
    (∀ t : Task, TaskReachable t →
      (t.state = TaskState.dead_letter ↔ t.retryCount = 5)) ∧
    (∀ t t' : Task, TaskStep t t' → t.state ≠ TaskState.dead_letter) ∧
    (∀ t : Task, t.retryCount + 1 < 5 →
      retryStalled t =
        { t with state := TaskState.queued, retryCount := t.retryCount + 1 }) ∧
    (∀ t : Task, ¬ t.retryCount + 1 < 5 →
      retryStalled t =
        { t with state := TaskState.dead_letter, retryCount := t.retryCount + 1 }) := by
  refine ⟨?_, ?_, ?_, ?_⟩
  · intro t hre
    obtain ⟨hdl, hndl⟩ := retryInv_reachable hre
    constructor
    · intro h
      simpa [retryCap] using hdl h
    · intro h5
      by_contra hne
      have hlt := hndl hne
      simp only [retryCap] at hlt
      omega
  · intro t t' hs
    exact dead_letter_terminal hs
  · intro t h
    unfold retryStalled
    rw [if_pos (by simpa [retryCap] using h)]
  · intro t h
    unfold retryStalled
    rw [if_neg (by simpa [retryCap] using h)]

/-- C1 witness: the characterization at a concrete reachable task and
concrete retry transitions at retry counts 0 and 4. -/
theorem task_dead_letter_iff_retry_five_witness :
    ((freshTask 0 0).state = TaskState.dead_letter ↔ (freshTask 0 0).retryCount = 5) ∧
    retryStalled { id := 1, createdAt := 0, retryCount := 4, state := TaskState.stalled } =
      { id := 1, createdAt := 0, retryCount := 5, state := TaskState.dead_letter } ∧
    retryStalled { id := 2, createdAt := 0, retryCount := 0, state := TaskState.stalled } =
      { id := 2, createdAt := 0, retryCount := 1, state := TaskState.queued } := by
  refine ⟨task_dead_letter_iff_retry_five.1 (freshTask 0 0) (TaskReachable.init 0 0), ?_, ?_⟩
  · have h := task_dead_letter_iff_retry_five.2.2.2
      { id := 1, createdAt := 0, retryCount := 4, state := TaskState.stalled } (by decide)
    simpa using h
  · have h := task_dead_letter_iff_retry_five.2.2.1
      { id := 2, createdAt := 0, retryCount := 0, state := TaskState.stalled } (by decide)
    simpa using h

/-- C2: for a council round with exactly 3 member votes, the tally decision
is `complete` iff at least 2 votes are yes and `continue` iff fewer than 2
are yes; in particular exactly 2 yes gives `complete` and exactly 1 yes
gives `continue`. -/
theorem council_two_thirds_tally :
    ∀ votes : List Vote, votes.length = 3 →
      ((tally votes = CouncilOutcome.complete ↔ 2 ≤ yesCount votes) ∧
       (tally votes = CouncilOutcome.cont ↔ yesCount votes < 2) ∧
       (yesCount votes = 2 → tally votes = CouncilOutcome.complete) ∧
       (yesCount votes = 1 → tally votes = CouncilOutcome.cont)) := by
  intro votes h3
  unfold tally
  by_cases hc : 3 * yesCount votes ≥ 2 * votes.length
  · rw [if_pos hc]
    refine ⟨⟨fun _ => by omega, fun _ => rfl⟩, ⟨fun h => by simp at h, fun _ => by exfalso; omega⟩,
      fun _ => rfl, fun _ => by exfalso; omega⟩
  · rw [if_neg hc]
    refine ⟨⟨fun h => by simp at h, fun _ => by exfalso; omega⟩, ⟨fun _ => by omega, fun _ => rfl⟩,
      fun _ => by exfalso; omega, fun _ => rfl⟩

/-- C2 witness: a concrete 2-of-3-yes round reaches `complete` and a
1-of-3-yes round reaches `continue`. -/
theorem council_two_thirds_tally_witness :
    tally [Vote.yes, Vote.yes, Vote.no] = CouncilOutcome.complete ∧
    tally [Vote.yes, Vote.no, Vote.no] = CouncilOutcome.cont := by
  constructor
  · exact (council_two_thirds_tally [Vote.yes, Vote.yes, Vote.no] (by decide)).2.2.1 (by decide)
  · exact (council_two_thirds_tally [Vote.yes, Vote.no, Vote.no] (by decide)).2.2.2 (by decide)

/-- C3: a unanimous 3/3 yes round is finalized as `complete` only when the
devil's-advocate pass confirms; a failed pass downgrades the round to
`continue`, and the downgraded outcome is appended as a distinct round
record after the tentative (devils-advocate-pending) tally record, leaving
prior history intact. -/
theorem council_unanimous_devils_advocate :
    ∀ (roundNo : Nat) (responses : List Vote) (daPass : Bool)
      (history : List CouncilRound),
      responses.length = 3 → unanimousYes responses = true →
      ((convergenceDecision (checkConvergence roundNo responses daPass history) =
          CouncilOutcome.complete → daPass = true) ∧
       (daPass = false →
          checkConvergence roundNo responses daPass history =
            Except.ok (CouncilOutcome.cont,
              history ++
                [{ roundNumber := roundNo, votes := responses,
                   outcome := CouncilOutcome.devilsAdvocatePending },
                 { roundNumber := roundNo, votes := responses,
                   outcome := CouncilOutcome.cont }]))) := by
  intro roundNo responses daPass history h3 hU
  have hall : ∀ v ∈ responses, v = Vote.yes := by
    intro v hv
    simpa using List.all_eq_true.mp hU v hv
  have hyc : yesCount responses = responses.length :=
    List.count_eq_length.mpr fun b hb => (hall b hb).symm
  have htally : tally responses = CouncilOutcome.complete := by
    unfold tally
    rw [if_pos (by omega)]
  have hnotlt : ¬ responses.length < councilSize := by
    simp [councilSize, h3]
  cases daPass with
  | true =>
      refine ⟨fun _ => rfl, fun hcontra => by simp at hcontra⟩
  | false =>
      constructor
      · intro hdec
        rw [checkConvergence, if_neg hnotlt, if_pos ⟨htally, hU⟩] at hdec
        simp [convergenceDecision] at hdec
      · intro _
        rw [checkConvergence, if_neg hnotlt, if_pos ⟨htally, hU⟩]
        rfl

/-- C3 witness: a concrete unanimous round whose devil's-advocate pass fails
is downgraded to `continue` and recorded after the pending tally record. -/
theorem council_unanimous_devils_advocate_witness :
    checkConvergence 1 [Vote.yes, Vote.yes, Vote.yes] false [] =
      Except.ok (CouncilOutcome.cont,
        [{ roundNumber := 1, votes := [Vote.yes, Vote.yes, Vote.yes],
           outcome := CouncilOutcome.devilsAdvocatePending },
         { roundNumber := 1, votes := [Vote.yes, Vote.yes, Vote.yes],
           outcome := CouncilOutcome.cont }]) := by
  have h := (council_unanimous_devils_advocate 1 [Vote.yes, Vote.yes, Vote.yes] false []
    (by decide) (by decide)).2 rfl
  simpa using h

/-- C4: every provider configuration without subagent capability sets
PROVIDER_MAX_PARALLEL=1 and PROVIDER_DEGRADED=true, while the claude
provider sets PROVIDER_HAS_SUBAGENTS=true with PROVIDER_MAX_PARALLEL=10;
under the codex bound the controller keeps at most one agent in state
`working` in every reachable state — the same contract bounded by
configuration rather than a separate code path. -/
theorem degraded_mode_single_agent :
    (∀ p ∈ providers, p.hasSubagents = false → p.maxParallel = 1 ∧ p.degraded = true) ∧
    claudeProvider.hasSubagents = true ∧ claudeProvider.maxParallel = 10 ∧
    (∀ l : List AgentState, CtrlReach codexProvider.maxParallel l → workingCount l ≤ 1) := by
  refine ⟨?_, rfl, rfl, ?_⟩
  · intro p hp hsub
    simp only [providers, List.mem_cons, List.mem_singleton] at hp
    rcases hp with rfl | rfl | hF
    · simp [claudeProvider] at hsub
    · exact ⟨rfl, rfl⟩
    · simp at hF
  · intro l h
    have hb := workingCount_reach h
    simpa [codexProvider] using hb

/-- C4 witness: the codex configuration fulfils the degraded bound and a
concrete reachable controller state respects it. -/
theorem degraded_mode_single_agent_witness :
    codexProvider.maxParallel = 1 ∧ codexProvider.degraded = true ∧
    workingCount ([] ++ [AgentState.ready]) ≤ 1 := by
  refine ⟨?_, ?_, ?_⟩
  · exact (degraded_mode_single_agent.1 codexProvider (by simp [providers]) rfl).1
  · exact (degraded_mode_single_agent.1 codexProvider (by simp [providers]) rfl).2
  · exact degraded_mode_single_agent.2.2.2 ([] ++ [AgentState.ready])
      (CtrlReach.spawnStep CtrlReach.init)

/-- C5: `checkConvergence` with fewer than 3 member responses fails with
`QuorumError`, the incomplete round is discarded (the persisted history is
unchanged), and the convergence decision defaults to `continue`. -/
theorem quorum_error_defaults_continue :
    ∀ (roundNo : Nat) (responses : List Vote) (daPass : Bool)
      (history : List CouncilRound),
      responses.length < 3 →
      checkConvergence roundNo responses daPass history =
        Except.error CouncilError.quorumError ∧
      convergenceDecision (checkConvergence roundNo responses daPass history) =
        CouncilOutcome.cont ∧
      historyAfter history (checkConvergence roundNo responses daPass history) =
        history := by
  intro roundNo responses daPass history hlt
  have hq : checkConvergence roundNo responses daPass history =
      Except.error CouncilError.quorumError := by
    unfold checkConvergence
    rw [if_pos (by simpa [councilSize] using hlt)]
  refine ⟨hq, ?_, ?_⟩
  · rw [hq]; rfl
  · rw [hq]; rfl

/-- C5 witness: a concrete 2-response round fails with `QuorumError` and
defaults to `continue` with the history discarded. -/
theorem quorum_error_defaults_continue_witness :
    checkConvergence 0 [Vote.yes, Vote.yes] true [] =
      Except.error CouncilError.quorumError ∧
    convergenceDecision (checkConvergence 0 [Vote.yes, Vote.yes] true []) =
      CouncilOutcome.cont :=
  ⟨(quorum_error_defaults_continue 0 [Vote.yes, Vote.yes] true [] (by decide)).1,
   (quorum_error_defaults_continue 0 [Vote.yes, Vote.yes] true [] (by decide)).2.1⟩

/-- C6: pausing then resuming a running session is the identity — the session
returns to `running` with the task queue contents, council state and
iteration counter exactly equal to their values before the pause. -/
theorem pause_resume_roundtrip :
    ∀ s : Session, s.state = SessionState.running →
      resumeSession (pauseSession s) = s ∧
      (resumeSession (pauseSession s)).state = SessionState.running ∧
      (resumeSession (pauseSession s)).queue = s.queue ∧
      (resumeSession (pauseSession s)).council = s.council ∧
      (resumeSession (pauseSession s)).iteration = s.iteration := by
  intro s hs
  obtain ⟨st, q, c, ph, it⟩ := s
  simp only [Session.mk.injEq] at hs ⊢
  subst hs
  simp [pauseSession, resumeSession]

/-- C6 witness: the round trip at a concrete running session. -/
theorem pause_resume_roundtrip_witness :
    resumeSession (pauseSession
      { state := SessionState.running, queue := [freshTask 0 0], council := [],
        phaseIndex := 2, iteration := 7 }) =
      { state := SessionState.running, queue := [freshTask 0 0], council := [],
        phaseIndex := 2, iteration := 7 } :=
  (pause_resume_roundtrip
    { state := SessionState.running, queue := [freshTask 0 0], council := [],
      phaseIndex := 2, iteration := 7 } rfl).1

/-- C7: `pick` returns no-task-available exactly when no task is queued;
otherwise it returns the first queued task in FIFO order transitioned to
`in_progress`, replacing it in the store — on a store ordered by creation
time this is the oldest queued task — and, with `pick` serialized per §5 so
concurrent callers execute as successive atomic picks, two picks on a store
with distinct task identifiers never return the same task. -/
theorem pick_at_most_once :
    (∀ q : List Task, pick q = none ↔ ∀ t ∈ q, t.state ≠ TaskState.queued) ∧
    (∀ (q : List Task) (t : Task) (q' : List Task), pick q = some (t, q') →
      t.state = TaskState.in_progress ∧
      ∃ pre t0 suf, q = pre ++ t0 :: suf ∧
        (∀ u ∈ pre, u.state ≠ TaskState.queued) ∧
        t0.state = TaskState.queued ∧
        t = { t0 with state := TaskState.in_progress } ∧
        q' = pre ++ t :: suf) ∧
    (∀ (q : List Task) (t : Task) (q' : List Task),
      q.Pairwise (fun a b => a.createdAt ≤ b.createdAt) →
      pick q = some (t, q') →
      ∀ u ∈ q, u.state = TaskState.queued → t.createdAt ≤ u.createdAt) ∧
    (∀ (q : List Task) (t1 : Task) (q1 : List Task) (t2 : Task) (q2 : List Task),
      (q.map Task.id).Nodup →
      pick q = some (t1, q1) → pick q1 = some (t2, q2) → t1.id ≠ t2.id) := by
  refine ⟨pick_none_iff, ?_, ?_, ?_⟩
  · intro q t q' h
    obtain ⟨pre, t0, suf, hsplit, hpre, ht0, htt, hts⟩ := pick_spec h
    exact ⟨by rw [htt], pre, t0, suf, hsplit, hpre, ht0, htt, hts⟩
  · intro q t q' hsort h u hu hq
    obtain ⟨pre, t0, suf, hsplit, hpre, ht0, htt, hts⟩ := pick_spec h
    have htc : t.createdAt = t0.createdAt := by rw [htt]
    rw [htc]
    subst hsplit
    rcases List.mem_append.mp hu with hm | hm
    · exact absurd hq (hpre u hm)
    · rcases List.mem_cons.mp hm with rfl | hm2
      · exact le_refl _
      · have hp2 := (List.pairwise_append.mp hsort).2.1
        exact (List.pairwise_cons.mp hp2).1 u hm2
  · intro q t1 q1 t2 q2 hnd h1 h2
    obtain ⟨-, hq1⟩ := pick_queuedIds h1
    obtain ⟨-, hq2⟩ := pick_queuedIds h2
    have hndq : (queuedIds q).Nodup := (queuedIds_sublist q).nodup hnd
    rw [hq1, hq2] at hndq
    intro hc
    rw [hc] at hndq
    simp at hndq

/-- C7 witness: two successive picks on a concrete two-task store return the
two distinct tasks. -/
theorem pick_at_most_once_witness :
    ({ id := 0, createdAt := 0, retryCount := 0, state := TaskState.in_progress } : Task).id ≠
    ({ id := 1, createdAt := 1, retryCount := 0, state := TaskState.in_progress } : Task).id :=
  pick_at_most_once.2.2.2
    [{ id := 0, createdAt := 0, retryCount := 0, state := TaskState.queued },
     { id := 1, createdAt := 1, retryCount := 0, state := TaskState.queued }]
    { id := 0, createdAt := 0, retryCount := 0, state := TaskState.in_progress }
    [{ id := 0, createdAt := 0, retryCount := 0, state := TaskState.in_progress },
     { id := 1, createdAt := 1, retryCount := 0, state := TaskState.queued }]
    { id := 1, createdAt := 1, retryCount := 0, state := TaskState.in_progress }
    [{ id := 0, createdAt := 0, retryCount := 0, state := TaskState.in_progress },
     { id := 1, createdAt := 1, retryCount := 0, state := TaskState.in_progress }]
    (by decide) (by decide) (by decide)

/-- C8: the postinstall script never destroys data at the skill path — a
pre-existing symlink is unlinked and replaced by a symlink to the package
directory, a real directory is renamed to the timestamped backup path (and
left untouched when the rename fails) rather than deleted, and the new
symlink is created only once the path is clear. -/
theorem postinstall_never_destroys :
    ∀ (renameOk : Bool) (fs : SkillFs),
      (∀ d, fs.atSkillDir = some (FsEntry.realDir d) →
        (renameOk = true →
          (postinstallSetup renameOk fs).atBackup = some (FsEntry.realDir d) ∧
          (postinstallSetup renameOk fs).atSkillDir =
            some (FsEntry.symlinkTo packageDirPath)) ∧
        (renameOk = false → postinstallSetup renameOk fs = fs)) ∧
      (∀ target, fs.atSkillDir = some (FsEntry.symlinkTo target) →
        (postinstallSetup renameOk fs).atSkillDir =
          some (FsEntry.symlinkTo packageDirPath) ∧
        (postinstallSetup renameOk fs).atBackup = fs.atBackup) ∧
      (fs.atSkillDir = none →
        (postinstallSetup renameOk fs).atSkillDir =
          some (FsEntry.symlinkTo packageDirPath) ∧
        (postinstallSetup renameOk fs).atBackup = fs.atBackup) := by
  intro renameOk fs
  obtain ⟨sk, bk⟩ := fs
  cases sk with
  | none =>
      refine ⟨fun d hd => by simp at hd, fun tg htg => by simp at htg, fun _ => ?_⟩
      cases renameOk <;> simp [postinstallSetup]
  | some e =>
      cases e with
      | symlinkTo tg =>
          refine ⟨fun d hd => by simp at hd, fun tg2 htg => ?_, fun hnone => by simp at hnone⟩
          cases renameOk <;> simp [postinstallSetup]
      | realDir d =>
          refine ⟨fun d2 hd => ?_, fun tg htg => by simp at htg, fun hnone => by simp at hnone⟩
          simp only [Option.some.injEq, FsEntry.realDir.injEq] at hd
          subst hd
          cases renameOk <;> simp [postinstallSetup]

/-- C8 witness: a concrete real directory is backed up, not deleted, and the
symlink is created at the cleared path. -/
theorem postinstall_never_destroys_witness :
    (postinstallSetup true
      { atSkillDir := some (FsEntry.realDir 42), atBackup := none }).atBackup =
      some (FsEntry.realDir 42) ∧
    (postinstallSetup true
      { atSkillDir := some (FsEntry.realDir 42), atBackup := none }).atSkillDir =
      some (FsEntry.symlinkTo packageDirPath) :=
  ((postinstall_never_destroys true
      { atSkillDir := some (FsEntry.realDir 42), atBackup := none }).1 42 rfl).1 rfl

/-- C9: `provider_get_tier_param` is total over tier strings with a
development-tier default — codex maps planning/development/fast to
xhigh/high/low and every other input to high; claude maps them to
opus/sonnet/haiku and every other input to sonnet. -/
theorem provider_get_tier_param_total :
    provider_get_tier_param_codex "planning" = "xhigh" ∧
    provider_get_tier_param_codex "development" = "high" ∧
    provider_get_tier_param_codex "fast" = "low" ∧
    provider_get_tier_param_claude "planning" = "opus" ∧
    provider_get_tier_param_claude "development" = "sonnet" ∧
    provider_get_tier_param_claude "fast" = "haiku" ∧
    (∀ tier : String, tier ≠ "planning" → tier ≠ "development" → tier ≠ "fast" →
      provider_get_tier_param_codex tier = "high" ∧
      provider_get_tier_param_claude tier = "sonnet") := by
  refine ⟨rfl, rfl, rfl, rfl, rfl, rfl, ?_⟩
  intro tier h1 h2 h3
  unfold provider_get_tier_param_codex provider_get_tier_param_claude
  rw [if_neg h1, if_neg h2, if_neg h3, if_neg h1, if_neg h2, if_neg h3]
  exact ⟨rfl, rfl⟩

/-- C9 witness: a tier string outside the three named tiers falls back to the
development-tier parameter for both providers. -/
theorem provider_get_tier_param_total_witness :
    provider_get_tier_param_codex "review" = "high" ∧
    provider_get_tier_param_claude "review" = "sonnet" :=
  provider_get_tier_param_total.2.2.2.2.2.2 "review"
    (by decide) (by decide) (by decide)

/-- C10: the standalone dashboard build minifies by default — `shouldMinify`
is false exactly when the arguments contain `--no-minify` and do not contain
`--minify`; in particular an invocation with no flags minifies. -/
theorem shouldMinify_default_on :
    (∀ args : List String,
      (shouldMinify args = false ↔ "--no-minify" ∈ args ∧ "--minify" ∉ args)) ∧
    shouldMinify [] = true := by
  constructor
  · intro args
    constructor
    · intro h
      have hp : "--minify" ∉ args ∧ "--no-minify" ∈ args := by
        simpa [shouldMinify] using h
      exact ⟨hp.2, hp.1⟩
    · intro hpair
      simp only [shouldMinify]
      simp only [Bool.or_eq_false_iff, Bool.not_eq_false']
      constructor
      · cases hcb : args.contains "--minify" with
        | false => rfl
        | true => exact absurd (by simpa using hcb) hpair.2
      · simpa using hpair.1
  · rfl

/-- C10 witness: passing only `--no-minify` disables minification. -/
theorem shouldMinify_default_on_witness :
    shouldMinify ["--no-minify"] = false :=
  (shouldMinify_default_on.1 ["--no-minify"]).mpr ⟨by decide, by decide⟩

end LokiMode
